import Mathlib

/-!
Verification of the csearch query-orchestration front end
(`cmd/csearch/csearch.go`, and the previous revision of the same file).

Compiled regular expressions are opaque external collaborators; a compiled
expression is modelled by its matching behaviour on strings, i.e. as a
predicate `String → Bool` (`fre.MatchString(name, true, true) >= 0` becomes
`fre name = true`).  File identifiers (`uint32`) are modelled as `Nat`.
-/

namespace Csearch

/-- A compiled regular expression, modelled by its match predicate
(`MatchString(s, true, true) >= 0` iff the predicate returns `true`). -/
abbrev Re := String → Bool

/-- `csearch.go` lines 102-105: `pat := "(?m)" + args[0]`, then
`if *iFlag { pat = "(?i)" + pat }`. -/
def buildPat (raw : String) (iFlag : Bool) : String :=
  let pat := "(?m)" ++ raw
  if iFlag then "(?i)" ++ pat else pat

/-- The inner allow loop of `csearch.go` lines 156-161: `matches` starts
`true`; the first allow expression that fails to match sets it to `false`
and breaks. -/
def allowPass (allowFres : List Re) (name : String) : Bool :=
  match allowFres with
  | [] => true
  | fre :: rest => if fre name then allowPass rest name else false

/-- The inner block loop of `csearch.go` lines 165-170: the first block
expression that matches sets `matches` to `false` and breaks.  Returns
`true` when some block expression matches the name. -/
def blockReject (blockFres : List Re) (name : String) : Bool :=
  match blockFres with
  | [] => false
  | fre :: rest => if fre name then true else blockReject rest name

/-- The candidate loop of `csearch.go` lines 153-174: keep `fileid` iff all
allow expressions match its name and no block expression does. -/
def filterLoop (allowFres blockFres : List Re) (nameOf : Nat → String)
    (post : List Nat) : List Nat :=
  match post with
  | [] => []
  | fileid :: rest =>
    if allowPass allowFres (nameOf fileid)
        && !(blockReject blockFres (nameOf fileid)) then
      fileid :: filterLoop allowFres blockFres nameOf rest
    else
      filterLoop allowFres blockFres nameOf rest

/-- `csearch.go` lines 150-180: the filename-filtering step, guarded by
`if len(allowFres) > 0 || len(blockFres) > 0`; when both sequences are
empty `post` is left untouched. -/
def filterPost (allowFres blockFres : List Re) (nameOf : Nat → String)
    (post : List Nat) : List Nat :=
  if 0 < allowFres.length ∨ 0 < blockFres.length then
    filterLoop allowFres blockFres nameOf post
  else
    post

/-- The inner `-f` loop of the previous revision (`part_000` lines 136-148):
keep `fileid` iff every `-f` expression matches its name. -/
def filterLoopOld (fres : List Re) (nameOf : Nat → String)
    (post : List Nat) : List Nat :=
  match post with
  | [] => []
  | fileid :: rest =>
    if allowPass fres (nameOf fileid) then
      fileid :: filterLoopOld fres nameOf rest
    else
      filterLoopOld fres nameOf rest

/-- The previous revision's filtering step (`part_000` lines 133-154),
guarded by `if len(fres) > 0`. -/
def filterPostOld (fres : List Re) (nameOf : Nat → String)
    (post : List Nat) : List Nat :=
  if 0 < fres.length then filterLoopOld fres nameOf post else post

/-- The mutable state of the candidate loop of `csearch.go` lines 182-193:
the shared `g.Limit` budget, the names printed in `--only-list-candidates`
mode, and the cumulative `g.Match` flag maintained by the grep
collaborator. -/
structure DriveState where
  limit : Int
  emitted : List String
  matched : Bool
deriving Repr, DecidableEq

/-- One iteration body of the loop at `csearch.go` lines 184-189: in
`--only-list-candidates` mode print the name and do `g.Limit--`; otherwise
call the external grep collaborator `g.File(name)`, modelled by
`file : String → Int → Int × Bool` returning the collaborator's updated
`g.Limit` and whether this file produced a match. -/
def driveStep (onlyList : Bool) (file : String → Int → Int × Bool)
    (name : String) (s : DriveState) : DriveState :=
  if onlyList then
    { s with emitted := s.emitted ++ [name], limit := s.limit - 1 }
  else
    let r := file name s.limit
    { s with limit := r.1, matched := s.matched || r.2 }

/-- The candidate loop of `csearch.go` lines 182-193: iterate candidates in
order, and after each one break when `g.Limit == 0`. -/
def driveLoop (onlyList : Bool) (file : String → Int → Int × Bool)
    (nameOf : Nat → String) (post : List Nat) (s : DriveState) : DriveState :=
  match post with
  | [] => s
  | fileid :: rest =>
    let s' := driveStep onlyList file (nameOf fileid) s
    if s'.limit == 0 then s'
    else driveLoop onlyList file nameOf rest s'

/-- Instrumented view of `driveLoop`: the value of `g.Limit` observed at the
`if g.Limit == 0` check after each processed candidate, in order.  Its
length is the number of candidates the loop processed. -/
def driveTrace (onlyList : Bool) (file : String → Int → Int × Bool)
    (nameOf : Nat → String) (post : List Nat) (s : DriveState) : List Int :=
  match post with
  | [] => []
  | fileid :: rest =>
    let s' := driveStep onlyList file (nameOf fileid) s
    if s'.limit == 0 then [s'.limit]
    else s'.limit :: driveTrace onlyList file nameOf rest s'

/-- The fatal outcomes of `Main` before any candidate is scanned: `usage()`
(exit 2), `log.Fatal` on content-pattern compile failure, and `log.Fatal`
on a filename-filter compile failure (recording the offending raw
expression). -/
inductive FatalError where
  | usageError : FatalError
  | patternCompileError : FatalError
  | filterCompileError (expr : String) : FatalError
deriving Repr, DecidableEq

/-- The flag state read by `Main` (`csearch.go` lines 51-56 and 72-73). -/
structure Flags where
  iFlag : Bool
  onlyListCandidates : Bool
  bruteFlag : Bool
  allowFiles : List String
  blockFiles : List String

/-- The external index collaborator: `regexpQuery re` stands for
`ix.PostingQuery(index.RegexpQuery(re.Syntax))`, `allQuery` for
`ix.PostingQuery` applied to the brute-force `QAll` query, and `name` for
`ix.Name`. -/
structure Index where
  regexpQuery : Re → List Nat
  allQuery : List Nat
  name : Nat → String

/-- The filter-compilation loops of `csearch.go` lines 111-132: compile
each raw expression in order, `log.Fatal` on the first failure. -/
def compileFres (compile : String → Option Re) :
    List String → Except FatalError (List Re)
  | [] => .ok []
  | f :: rest =>
    match compile f with
    | none => .error (.filterCompileError f)
    | some fre =>
      match compileFres compile rest with
      | .error e => .error e
      | .ok fres => .ok (fre :: fres)

/-- `Main` of `csearch.go` lines 75-194, with the external collaborators
(`regexp.Compile`, `regexp.Grep.File`, the index) passed in as parameters:
check the argument count, build and compile the content pattern, compile
the allow and block filename filters, obtain the posting list, filter it by
filename, and drive the candidate loop with initial budget `limit0`
(`g.Limit` as set up by `g.AddFlags`). -/
def csearchMain (compile : String → Option Re)
    (file : Re → String → Int → Int × Bool)
    (ix : Index) (args : List String) (fl : Flags) (limit0 : Int) :
    Except FatalError DriveState :=
  match args with
  | [raw] =>
    match compile (buildPat raw fl.iFlag) with
    | none => .error .patternCompileError
    | some re =>
      match compileFres compile fl.allowFiles with
      | .error e => .error e
      | .ok allowFres =>
        match compileFres compile fl.blockFiles with
        | .error e => .error e
        | .ok blockFres =>
          let post := if fl.bruteFlag then ix.allQuery else ix.regexpQuery re
          let fnames := filterPost allowFres blockFres ix.name post
          .ok (driveLoop fl.onlyListCandidates (file re) ix.name fnames
            { limit := limit0, emitted := [], matched := false })
  | _ => .error .usageError

/-- The process exit code of the current revision (`csearch.go` lines
196-199): `usage()` exits 2, `log.Fatal` exits 1, and `main` ends with
`os.Exit(0)` whenever `Main` returns. -/
def exitCode (r : Except FatalError DriveState) : Nat :=
  match r with
  | .error .usageError => 2
  | .error _ => 1
  | .ok _ => 0

/-- The process exit code of the previous revision (`part_000` lines
164-173): `Main` ends with `matches = g.Match` and `main` exits 1 when
`matches` is false, 0 otherwise. -/
def exitCodeOld (r : Except FatalError DriveState) : Nat :=
  match r with
  | .error .usageError => 2
  | .error _ => 1
  | .ok s => if s.matched then 0 else 1

/-! Concrete collaborators and flag states, for evaluating the model on
specific runs. -/

/-- A flag state with nothing set: case-sensitive, content-search mode, no
brute force, no filename filters. -/
def noFlags : Flags :=
  { iFlag := false, onlyListCandidates := false, bruteFlag := false,
    allowFiles := [], blockFiles := [] }

/-- A flag state carrying one allow filter whose raw expression is the
string "bad". -/
def allowBadFlags : Flags :=
  { iFlag := false, onlyListCandidates := false, bruteFlag := false,
    allowFiles := ["bad"], blockFiles := [] }

/-- An index collaborator whose posting lists are empty. -/
def emptyIx : Index :=
  { regexpQuery := fun _ => [], allQuery := [], name := fun _ => "" }

/-- A grep collaborator that emits nothing: it leaves `g.Limit` unchanged
and never records a match. -/
def noopGrep : String → Int → Int × Bool := fun _ l => (l, false)

/-- The grep collaborator `noopGrep`, ignoring the compiled pattern. -/
def noopFile : Re → String → Int → Int × Bool := fun _ => noopGrep

/-- A pattern compiler for which every expression is valid and the
compiled expression matches nothing. -/
def compileAll : String → Option Re := fun _ => some (fun _ => false)

/-- A pattern compiler for which no expression is valid. -/
def compileNothing : String → Option Re := fun _ => none

/-- A pattern compiler for which exactly the raw expression "bad" is
invalid. -/
def compileExceptBad : String → Option Re :=
  fun s => if s == "bad" then none else some (fun _ => true)

/-- A compiled expression matching every name. -/
def matchAnyRe : Re := fun _ => true

/-- A name resolver giving every file identifier the name "x". -/
def constName : Nat → String := fun _ => "x"

/-! Supporting lemmas. -/

lemma allowPass_eq_all (allowFres : List Re) (name : String) :
    allowPass allowFres name = allowFres.all (fun fre => fre name) := by
  induction allowFres with
  | nil => rfl
  | cons fre rest ih =>
    simp [allowPass, List.all_cons, ih]

lemma blockReject_eq_any (blockFres : List Re) (name : String) :
    blockReject blockFres name = blockFres.any (fun fre => fre name) := by
  induction blockFres with
  | nil => rfl
  | cons fre rest ih =>
    simp [blockReject, List.any_cons, ih]

lemma mem_filterLoop {allowFres blockFres : List Re} {nameOf : Nat → String}
    {post : List Nat} {fileid : Nat}
    (h : fileid ∈ filterLoop allowFres blockFres nameOf post) :
    allowPass allowFres (nameOf fileid) = true ∧
      blockReject blockFres (nameOf fileid) = false := by
  induction post with
  | nil => simp [filterLoop] at h
  | cons x rest ih =>
    by_cases hx : allowPass allowFres (nameOf x)
        && !(blockReject blockFres (nameOf x))
    · rw [filterLoop, if_pos hx] at h
      rcases List.mem_cons.mp h with h | h
      · subst h
        simpa [Bool.and_eq_true, Bool.not_eq_true'] using hx
      · exact ih h
    · rw [filterLoop, if_neg hx] at h
      exact ih h

lemma filterLoop_sublist (allowFres blockFres : List Re)
    (nameOf : Nat → String) (post : List Nat) :
    (filterLoop allowFres blockFres nameOf post).Sublist post := by
  induction post with
  | nil => simp [filterLoop]
  | cons x rest ih =>
    rw [filterLoop]
    by_cases hx : allowPass allowFres (nameOf x)
        && !(blockReject blockFres (nameOf x))
    · rw [if_pos hx]
      exact ih.cons₂ x
    · rw [if_neg hx]
      exact ih.cons x

lemma filterLoop_no_block (fres : List Re) (nameOf : Nat → String)
    (post : List Nat) :
    filterLoop fres [] nameOf post = filterLoopOld fres nameOf post := by
  induction post with
  | nil => rfl
  | cons x rest ih =>
    rw [filterLoop, filterLoopOld]
    simp only [blockReject, Bool.not_false, Bool.and_true]
    rw [ih]

lemma driveStep_limit_le (onlyList : Bool) (file : String → Int → Int × Bool)
    (hfile : ∀ n l, (file n l).1 ≤ l) (name : String) (s : DriveState) :
    (driveStep onlyList file name s).limit ≤ s.limit := by
  unfold driveStep
  by_cases h : onlyList
  · simp [h]
  · simpa [h] using hfile name s.limit

lemma driveTrace_chain (onlyList : Bool) (file : String → Int → Int × Bool)
    (nameOf : Nat → String) (hfile : ∀ n l, (file n l).1 ≤ l)
    (post : List Nat) : ∀ s : DriveState,
    List.Chain (fun x y => y ≤ x) s.limit
      (driveTrace onlyList file nameOf post s) := by
  induction post with
  | nil =>
    intro s
    exact List.Chain.nil
  | cons fileid rest ih =>
    intro s
    rw [driveTrace]
    by_cases h : (driveStep onlyList file (nameOf fileid) s).limit == 0
    · rw [if_pos h]
      exact List.Chain.cons (driveStep_limit_le onlyList file hfile _ s)
        List.Chain.nil
    · rw [if_neg h]
      exact List.Chain.cons (driveStep_limit_le onlyList file hfile _ s)
        (ih _)

lemma driveTrace_zero_only_last (onlyList : Bool)
    (file : String → Int → Int × Bool) (nameOf : Nat → String)
    (post : List Nat) : ∀ s : DriveState,
    ∀ l ∈ (driveTrace onlyList file nameOf post s).dropLast, l ≠ 0 := by
  induction post with
  | nil =>
    intro s l hl
    simp [driveTrace] at hl
  | cons fileid rest ih =>
    intro s l hl
    rw [driveTrace] at hl
    by_cases h : (driveStep onlyList file (nameOf fileid) s).limit == 0
    · rw [if_pos h] at hl
      simp at hl
    · rw [if_neg h] at hl
      rcases ht : driveTrace onlyList file nameOf rest
          (driveStep onlyList file (nameOf fileid) s) with _ | ⟨x, t⟩
      · rw [ht] at hl
        simp at hl
      · rw [ht, List.dropLast_cons₂] at hl
        rcases List.mem_cons.mp hl with h1 | h2
        · subst h1
          simpa using h
        · exact ih _ l (by rw [ht]; exact h2)

lemma driveTrace_length_of_neg (onlyList : Bool)
    (file : String → Int → Int × Bool) (nameOf : Nat → String)
    (hfile : ∀ n l, (file n l).1 ≤ l) (post : List Nat) :
    ∀ s : DriveState, s.limit < 0 →
    (driveTrace onlyList file nameOf post s).length = post.length := by
  induction post with
  | nil =>
    intro s _
    rfl
  | cons fileid rest ih =>
    intro s hs
    have hlt : (driveStep onlyList file (nameOf fileid) s).limit < 0 :=
      lt_of_le_of_lt (driveStep_limit_le onlyList file hfile _ s) hs
    have hne : ¬((driveStep onlyList file (nameOf fileid) s).limit == 0) := by
      simp only [beq_iff_eq]
      omega
    rw [driveTrace, if_neg hne]
    simp [ih _ hlt]

lemma driveLoop_list_of_neg (file : String → Int → Int × Bool)
    (nameOf : Nat → String) (post : List Nat) :
    ∀ s : DriveState, s.limit < 0 →
    driveLoop true file nameOf post s =
      { limit := s.limit - post.length,
        emitted := s.emitted ++ post.map nameOf,
        matched := s.matched } := by
  induction post with
  | nil =>
    intro s _
    cases s
    simp [driveLoop]
  | cons fileid rest ih =>
    intro s hs
    have hstep : driveStep true file (nameOf fileid) s =
        { limit := s.limit - 1, emitted := s.emitted ++ [nameOf fileid],
          matched := s.matched } := by
      simp [driveStep]
    have hlt : (driveStep true file (nameOf fileid) s).limit < 0 := by
      rw [hstep]
      show s.limit - 1 < 0
      omega
    have hne : ¬((driveStep true file (nameOf fileid) s).limit == 0) := by
      simp only [beq_iff_eq]
      omega
    rw [driveLoop, if_neg hne, ih _ hlt, hstep]
    simp
    ring

lemma driveLoop_budget_two (file : String → Int → Int × Bool)
    (nameOf : Nat → String) (a b c : Nat) (rest : List Nat) :
    driveLoop true file nameOf (a :: b :: c :: rest)
      { limit := 2, emitted := [], matched := false } =
      { limit := 0, emitted := [nameOf a, nameOf b], matched := false } := by
  rw [driveLoop]
  have h1 : driveStep true file (nameOf a)
      { limit := 2, emitted := [], matched := false } =
      { limit := 1, emitted := [nameOf a], matched := false } := by
    simp [driveStep]
  rw [h1]
  norm_num
  rw [driveLoop]
  have h2 : driveStep true file (nameOf b)
      { limit := 1, emitted := [nameOf a], matched := false } =
      { limit := 0, emitted := [nameOf a, nameOf b], matched := false } := by
    simp [driveStep]
  rw [h2]
  simp

lemma compileFres_error_of_find (compile : String → Option Re) :
    ∀ (fs : List String) (f₀ : String),
      fs.find? (fun f => (compile f).isNone) = some f₀ →
      compileFres compile fs = .error (.filterCompileError f₀) := by
  intro fs
  induction fs with
  | nil =>
    intro f₀ h
    simp at h
  | cons f rest ih =>
    intro f₀ h
    by_cases hf : (compile f).isNone
    · rw [List.find?_cons_of_pos (p := fun f => (compile f).isNone) _ hf] at h
      have hf' : compile f = none := Option.isNone_iff_eq_none.mp hf
      rw [compileFres, hf']
      simpa using congrArg (fun o => FatalError.filterCompileError o)
        (Option.some.inj h)
    · rw [List.find?_cons_of_neg (p := fun f => (compile f).isNone) _ hf] at h
      rcases Option.ne_none_iff_exists.mp
          (by simpa using hf) with ⟨fre, hfre⟩
      rw [compileFres, ← hfre, ih f₀ h]

lemma compileFres_ok_of_find_none (compile : String → Option Re) :
    ∀ fs : List String,
      fs.find? (fun f => (compile f).isNone) = none →
      ∃ l, compileFres compile fs = .ok l := by
  intro fs
  induction fs with
  | nil =>
    intro _
    exact ⟨[], rfl⟩
  | cons f rest ih =>
    intro h
    have hf : ¬(compile f).isNone := by
      intro hf
      rw [List.find?_cons_of_pos (p := fun f => (compile f).isNone) _ hf] at h
      exact Option.some_ne_none _ h
    rw [List.find?_cons_of_neg (p := fun f => (compile f).isNone) _ hf] at h
    rcases Option.ne_none_iff_exists.mp (by simpa using hf) with ⟨fre, hfre⟩
    rcases ih h with ⟨l, hl⟩
    exact ⟨fre :: l, by rw [compileFres, ← hfre, hl]⟩

/-! The claims. -/

/-- C1: the current revision's `main` exits 0 on every run on which `Main`
returns, even when the whole run produced no match: on a one-argument
invocation with an empty posting list the run completes with
`matched = false` and the exit code is 0 (the previous revision exits 1 on
the same input). -/
theorem C1_no_match_run_exits_zero :
    csearchMain compileAll noopFile emptyIx ["foo"] noFlags (-1) =
      .ok { limit := -1, emitted := [], matched := false } ∧
    exitCode (csearchMain compileAll noopFile emptyIx ["foo"] noFlags (-1))
      = 0 ∧
    exitCodeOld (csearchMain compileAll noopFile emptyIx ["foo"] noFlags (-1))
      = 1 :=
  ⟨rfl, rfl, rfl⟩

/-- C2: with a non-empty allow sequence, every candidate accepted by the
filename-filtering step has a resolved name matching every allow
expression. -/
theorem C2_accepted_matches_every_allow (allowFres blockFres : List Re)
    (nameOf : Nat → String) (post : List Nat) (fileid : Nat)
    (hne : allowFres ≠ [])
    (hmem : fileid ∈ filterPost allowFres blockFres nameOf post) :
    ∀ fre ∈ allowFres, fre (nameOf fileid) = true := by
  have hlen : 0 < allowFres.length := List.length_pos.mpr hne
  rw [filterPost, if_pos (Or.inl hlen)] at hmem
  have hall := (mem_filterLoop hmem).1
  rw [allowPass_eq_all] at hall
  intro fre hfre
  exact List.all_eq_true.mp hall fre hfre

theorem C2_witness :
    ([matchAnyRe] : List Re) ≠ [] ∧
    0 ∈ filterPost [matchAnyRe] [] constName [0] ∧
    ∀ fre ∈ ([matchAnyRe] : List Re), fre (constName 0) = true :=
  ⟨by simp, by simp [filterPost, filterLoop, allowPass, blockReject,
      matchAnyRe, constName],
   C2_accepted_matches_every_allow [matchAnyRe] [] constName [0] 0
     (by simp)
     (by simp [filterPost, filterLoop, allowPass, blockReject,
       matchAnyRe, constName])⟩

/-- C3: a candidate whose resolved name matches some block expression is
excluded from the filtered set, regardless of the allow expressions. -/
theorem C3_blocked_candidate_excluded (allowFres blockFres : List Re)
    (nameOf : Nat → String) (post : List Nat) (fileid : Nat) (fre : Re)
    (hfre : fre ∈ blockFres) (hmatch : fre (nameOf fileid) = true) :
    fileid ∉ filterPost allowFres blockFres nameOf post := by
  intro hmem
  have hlen : 0 < blockFres.length :=
    List.length_pos.mpr (by rintro rfl; simp at hfre)
  rw [filterPost, if_pos (Or.inr hlen)] at hmem
  have hblk := (mem_filterLoop hmem).2
  rw [blockReject_eq_any] at hblk
  have hforall : ∀ x ∈ blockFres, ¬(x (nameOf fileid) = true) := by
    simpa using hblk
  exact hforall fre hfre hmatch

theorem C3_witness :
    matchAnyRe ∈ ([matchAnyRe] : List Re) ∧
    matchAnyRe (constName 0) = true ∧
    0 ∉ filterPost [matchAnyRe] [matchAnyRe] constName [0] :=
  ⟨List.mem_singleton.mpr rfl, rfl,
   C3_blocked_candidate_excluded [matchAnyRe] [matchAnyRe] constName [0] 0
     matchAnyRe (List.mem_singleton.mpr rfl) rfl⟩

/-- C4: the filename-filtering step is a stable filter: its output is a
subsequence of the raw posting list, so any two accepted candidates keep
their relative order. -/
theorem C4_filtered_is_subsequence (allowFres blockFres : List Re)
    (nameOf : Nat → String) (post : List Nat) :
    (filterPost allowFres blockFres nameOf post).Sublist post := by
  rw [filterPost]
  split
  · exact filterLoop_sublist allowFres blockFres nameOf post
  · exact List.Sublist.refl post

/-- C5: with both filter sequences empty, the filtering step returns the
raw posting list unchanged, and its result does not depend on the name
resolver at all (no name resolution is needed). -/
theorem C5_empty_filters_identity (nameOf nameOf' : Nat → String)
    (post : List Nat) :
    filterPost [] [] nameOf post = post ∧
    filterPost [] [] nameOf post = filterPost [] [] nameOf' post := by
  constructor
  · rw [filterPost, if_neg (by simp)]
  · rw [filterPost, if_neg (by simp), filterPost, if_neg (by simp)]

/-- C6: with a collaborator that never increases `g.Limit`, the budget
values observed at the loop's exit check form a non-increasing chain from
the initial budget; a zero budget is only ever observed at the last
processed candidate (the loop breaks there); and in
`--only-list-candidates` mode with budget 2 and at least three candidates
exactly the first two names are emitted. -/
theorem C6_budget_monotone_and_stops_at_zero (onlyList : Bool)
    (file : String → Int → Int × Bool) (nameOf : Nat → String)
    (post : List Nat) (s : DriveState)
    (hfile : ∀ n l, (file n l).1 ≤ l) :
    List.Chain (fun x y => y ≤ x) s.limit
      (driveTrace onlyList file nameOf post s) ∧
    (∀ l ∈ (driveTrace onlyList file nameOf post s).dropLast, l ≠ 0) ∧
    (∀ a b c rest, driveLoop true file nameOf (a :: b :: c :: rest)
        { limit := 2, emitted := [], matched := false } =
        { limit := 0, emitted := [nameOf a, nameOf b], matched := false }) :=
  ⟨driveTrace_chain onlyList file nameOf hfile post s,
   driveTrace_zero_only_last onlyList file nameOf post s,
   fun a b c rest => driveLoop_budget_two file nameOf a b c rest⟩

theorem C6_witness :
    (∀ n l, (noopGrep n l).1 ≤ l) ∧
    (List.Chain (fun x y => y ≤ x)
        ({ limit := 1, emitted := [], matched := false } : DriveState).limit
        (driveTrace true noopGrep constName [0]
          { limit := 1, emitted := [], matched := false }) ∧
      (∀ l ∈ (driveTrace true noopGrep constName [0]
          { limit := 1, emitted := [], matched := false }).dropLast,
        l ≠ 0) ∧
      (∀ a b c rest,
        driveLoop true noopGrep constName (a :: b :: c :: rest)
            { limit := 2, emitted := [], matched := false } =
          { limit := 0, emitted := [constName a, constName b],
            matched := false })) :=
  ⟨fun _ l => le_refl l,
   C6_budget_monotone_and_stops_at_zero true noopGrep constName [0]
     { limit := 1, emitted := [], matched := false }
     (fun _ l => le_refl l)⟩

/-- C7: with a negative (unlimited) initial budget and a collaborator that
never increases `g.Limit`, the `g.Limit == 0` break never fires: every
candidate is processed in either mode, and in `--only-list-candidates`
mode every candidate's name is emitted. -/
theorem C7_unlimited_budget_processes_all (onlyList : Bool)
    (file : String → Int → Int × Bool) (nameOf : Nat → String)
    (post : List Nat) (s : DriveState)
    (hfile : ∀ n l, (file n l).1 ≤ l) (hneg : s.limit < 0) :
    (driveTrace onlyList file nameOf post s).length = post.length ∧
    (driveLoop true file nameOf post s).emitted =
      s.emitted ++ post.map nameOf :=
  ⟨driveTrace_length_of_neg onlyList file nameOf hfile post s hneg,
   by rw [driveLoop_list_of_neg file nameOf post s hneg]⟩

theorem C7_witness :
    (∀ n l, (noopGrep n l).1 ≤ l) ∧
    ({ limit := -1, emitted := [], matched := false } : DriveState).limit
      < 0 ∧
    ((driveTrace true noopGrep constName [0, 1, 2]
        { limit := -1, emitted := [], matched := false }).length =
      [0, 1, 2].length ∧
    (driveLoop true noopGrep constName [0, 1, 2]
        { limit := -1, emitted := [], matched := false }).emitted =
      ([] : List String) ++ [0, 1, 2].map constName) :=
  ⟨fun _ l => le_refl l, by decide,
   C7_unlimited_budget_processes_all true noopGrep constName [0, 1, 2]
     { limit := -1, emitted := [], matched := false }
     (fun _ l => le_refl l) (by decide)⟩

/-- C8: the effective content pattern is the raw pattern wrapped in the
multiline marker, with the case-insensitivity marker additionally
prefixed exactly when `-i` is set; and if that pattern does not compile,
`Main` fails fatally with a pattern-compile error and no search happens. -/
theorem C8_pattern_wrapping_and_fatal_compile (raw : String)
    (compile : String → Option Re) (file : Re → String → Int → Int × Bool)
    (ix : Index) (fl : Flags) (limit0 : Int)
    (hbad : compile (buildPat raw fl.iFlag) = none) :
    (∀ r i, buildPat r i = (if i then "(?i)" else "") ++ ("(?m)" ++ r)) ∧
    csearchMain compile file ix [raw] fl limit0 =
      .error .patternCompileError := by
  constructor
  · intro r i
    cases i <;> simp [buildPat]
  · simp [csearchMain, hbad]

theorem C8_witness :
    compileNothing (buildPat "x" noFlags.iFlag) = none ∧
    ((∀ r i, buildPat r i = (if i then "(?i)" else "") ++ ("(?m)" ++ r)) ∧
      csearchMain compileNothing noopFile emptyIx ["x"] noFlags 0 =
        .error .patternCompileError) :=
  ⟨rfl,
   C8_pattern_wrapping_and_fatal_compile "x" compileNothing noopFile
     emptyIx noFlags 0 rfl⟩

/-- C9: if the content pattern compiles but some raw filename expression in
the allow or block sequence does not, `Main` fails fatally with a
filter-compile error naming the first invalid expression (allow sequence
scanned first, then block), for every possible index collaborator — so no
index query, filtering, or search happens, and no search ever runs with
only a subset of the filters. -/
theorem C9_filter_compile_fails_on_first_invalid (raw : String)
    (compile : String → Option Re) (file : Re → String → Int → Int × Bool)
    (fl : Flags) (limit0 : Int) (re : Re) (f₀ : String)
    (hre : compile (buildPat raw fl.iFlag) = some re)
    (hfirst : (fl.allowFiles ++ fl.blockFiles).find?
        (fun f => (compile f).isNone) = some f₀) :
    ∀ ix : Index, csearchMain compile file ix [raw] fl limit0 =
      .error (.filterCompileError f₀) := by
  intro ix
  rcases h : fl.allowFiles.find? (fun f => (compile f).isNone) with _ | fa
  · rcases compileFres_ok_of_find_none compile fl.allowFiles h with ⟨l, hl⟩
    have hblock : fl.blockFiles.find? (fun f => (compile f).isNone)
        = some f₀ := by
      rw [List.find?_append, h] at hfirst
      simpa using hfirst
    simp [csearchMain, hre, hl,
      compileFres_error_of_find compile fl.blockFiles f₀ hblock]
  · have hfa : fa = f₀ := by
      rw [List.find?_append, h] at hfirst
      simpa using hfirst
    subst hfa
    simp [csearchMain, hre,
      compileFres_error_of_find compile fl.allowFiles fa h]

theorem C9_witness :
    compileExceptBad (buildPat "x" allowBadFlags.iFlag) =
      some (fun _ => true) ∧
    (allowBadFlags.allowFiles ++ allowBadFlags.blockFiles).find?
      (fun f => (compileExceptBad f).isNone) = some "bad" ∧
    csearchMain compileExceptBad noopFile emptyIx ["x"] allowBadFlags 0 =
      .error (.filterCompileError "bad") :=
  ⟨rfl, rfl,
   C9_filter_compile_fails_on_first_invalid "x" compileExceptBad noopFile
     allowBadFlags 0 (fun _ => true) "bad" rfl rfl emptyIx⟩

/-- C10: for every raw posting list and every sequence of compiled filename
expressions, the current revision's filtering step with that sequence as
the allow filters and no block filters produces exactly the previous
revision's filtering of the same list with its `-f` filters. -/
theorem C10_allow_only_refines_old (fres : List Re) (nameOf : Nat → String)
    (post : List Nat) :
    filterPost fres [] nameOf post = filterPostOld fres nameOf post := by
  rw [filterPost, filterPostOld]
  by_cases h : 0 < fres.length
  · rw [if_pos (Or.inl h), if_pos h, filterLoop_no_block]
  · rw [if_neg (by simp [h]), if_neg h]

end Csearch
